import Mathlib

/-!
Verification development for the ng-effects library.

Part 1 models the effect-metadata pipeline of
`src/unnamed/part_000` (explore-effects):

* `mergeOptions` merges per-effect options over per-registration
  defaults (JavaScript `Object.assign` semantics: a key explicitly
  present in the override wins; keys are modeled as `Option` fields,
  conflating a key set to `undefined` with an absent key), then applies
  the implicit rule `markDirty := true` when the merged `markDirty` is
  undefined and `Boolean(options.bind || options.assign)` holds.
* `exploreEffects` walks the decorator metadata (`getMetadata(Effect)`,
  a map from component type to its declared effects, modeled as an
  association list because that module is not part of the sources under
  verification), skips types already present in the `effectMetadata`
  registry, builds a descriptor per declared effect, stores the
  descriptor set in the registry, and returns the `metadata` binding —
  the raw decorator-metadata collection, not the descriptors.  The
  JavaScript `Map` mutations are modeled by explicit state passing.
-/

/-- Effect configuration. The TypeScript interfaces (`EffectOptions`,
`DefaultEffectOptions`) live outside the verified sources; the fields
follow the spec's data model: a binding target (`bind`), a dirty-marking
flag (`markDirty`), a defer-until-rendered flag (`whenRendered`), and a
shallow-assignment flag (`assign`).  Every field is optional, mirroring
optional keys of a JavaScript object. -/
structure EffectOptions where
  bind : Option String
  markDirty : Option Bool
  whenRendered : Option Bool
  assign : Option Bool
deriving DecidableEq, Repr

/-- The empty options object `{}`. -/
def EffectOptions.empty : EffectOptions := ⟨none, none, none, none⟩

/-- JavaScript truthiness of an optional string value: an absent key and
the empty string are falsy, every other string is truthy. -/
def jsTruthyStr : Option String → Bool
  | none => false
  | some s => !s.isEmpty

/-- JavaScript truthiness of an optional boolean value: an absent key and
`false` are falsy. -/
def jsTruthyBool : Option Bool → Bool
  | none => false
  | some b => b

/-- The `merged` object of `mergeOptions`:
`Object.assign({}, defaults, options)` — per key, the override's value
when the key is present there, else the defaults' value. -/
def mergeAssign (defaults options : EffectOptions) : EffectOptions :=
  { bind := options.bind.orElse fun _ => defaults.bind
    markDirty := options.markDirty.orElse fun _ => defaults.markDirty
    whenRendered := options.whenRendered.orElse fun _ => defaults.whenRendered
    assign := options.assign.orElse fun _ => defaults.assign }

/-- `mergeOptions(defaults, options)` from the explore-effects module:
`Object.assign({}, defaults, options)` followed by the implicit rule
setting `markDirty` to `true` when the merged `markDirty` is undefined
and the override's `bind` or `assign` is truthy.  The source gives
`options` the default value `{}` when the argument is absent; callers of
this model pass `EffectOptions.empty` explicitly in that case. -/
def mergeOptions (defaults options : EffectOptions) : EffectOptions :=
  if (mergeAssign defaults options).markDirty = none ∧
      (jsTruthyStr options.bind || jsTruthyBool options.assign) = true then
    { mergeAssign defaults options with markDirty := some true }
  else
    mergeAssign defaults options

/-- The three parameter-decorator roles whose metadata is collected for
each effect method (`[State, Context, Observe]`). -/
inductive ArgKey where
  | state
  | context
  | observe
deriving DecidableEq, Repr

/-- An effect descriptor as built inside `exploreEffects`: the printable
path, owning type (identified by its name), effect method name, merged
options, and the collected per-role argument metadata. -/
structure EffectMetadata where
  path : String
  type : String
  name : String
  options : EffectOptions
  args : List (List Nat)
deriving DecidableEq, Repr

/-- The declared effects of one type: method name paired with the
effect-local options (`[name, locals]` entries). -/
abbrev EffectsDecl := List (String × EffectOptions)

/-- The decorator metadata `getMetadata(Effect)`: association list from
type (by name) to its declared effects. -/
abbrev MetadataMap := List (String × EffectsDecl)

/-- The module-level `effectMetadata` registry: association list from
type to its cached descriptor set. -/
abbrev Registry := List (String × List EffectMetadata)

/-- The descriptor set built for one type in the inner loop of
`exploreEffects`.  `argMeta k t n` stands for
`getMetadata(key, type.prototype, name)` — parameter metadata looked up
by role, type and method name, supplied as an oracle because the
metadata module is not part of the verified sources. -/
def descriptorsFor (argMeta : ArgKey → String → String → List Nat)
    (defaults : EffectOptions) (tname : String) (effects : EffectsDecl) :
    List EffectMetadata :=
  effects.map fun e =>
    { path := tname ++ " -> " ++ e.1
      type := tname
      name := e.1
      options := mergeOptions defaults e.2
      args := [ArgKey.state, ArgKey.context, ArgKey.observe].map fun k => argMeta k tname e.1 }

/-- One iteration of the outer loop of `exploreEffects`: a type already
present in the registry is skipped (`continue`); otherwise its
descriptor set is built and stored. -/
def exploreStep (argMeta : ArgKey → String → String → List Nat)
    (defaults : EffectOptions) (reg : Registry) (entry : String × EffectsDecl) :
    Registry :=
  if (List.lookup entry.1 reg).isSome then reg
  else reg ++ [(entry.1, descriptorsFor argMeta defaults entry.1 entry.2)]

/-- `exploreEffects(defaults)`: iterates the decorator metadata,
updating the registry, and then executes `return metadata` — the outer
`metadata` binding, i.e. the raw decorator-metadata collection.  The
result is the pair (updated registry state, returned value). -/
def exploreEffects (argMeta : ArgKey → String → String → List Nat)
    (defaults : EffectOptions) (md : MetadataMap) (reg : Registry) :
    Registry × MetadataMap :=
  (md.foldl (exploreStep argMeta defaults) reg, md)

/-- The merge never touches `bind`: it is the override's value when
present, else the defaults'. -/
theorem mergeOptions_bind (d o : EffectOptions) :
    (mergeOptions d o).bind = o.bind.orElse fun _ => d.bind := by
  unfold mergeOptions
  split <;> rfl

/-- The merge never touches `whenRendered`. -/
theorem mergeOptions_whenRendered (d o : EffectOptions) :
    (mergeOptions d o).whenRendered = o.whenRendered.orElse fun _ => d.whenRendered := by
  unfold mergeOptions
  split <;> rfl

/-- The merge never touches `assign`. -/
theorem mergeOptions_assign (d o : EffectOptions) :
    (mergeOptions d o).assign = o.assign.orElse fun _ => d.assign := by
  unfold mergeOptions
  split <;> rfl

/-- Closed form of the merged `markDirty`. -/
theorem mergeOptions_markDirty (d o : EffectOptions) :
    (mergeOptions d o).markDirty =
      if (mergeAssign d o).markDirty = none ∧
          (jsTruthyStr o.bind || jsTruthyBool o.assign) = true then
        some true
      else
        (mergeAssign d o).markDirty := by
  unfold mergeOptions
  split <;> simp_all

/-- C1 counterexample: with empty defaults and the override
`{ assign: false }`, the override contains an `assign` entry and
`markDirty` is absent from both sides, yet the merged `markDirty` is not
`true` — the source tests truthiness of `options.bind || options.assign`,
not mere presence of the keys. -/
theorem c1_counterexample :
    (EffectOptions.mk none none none (some false)).assign.isSome = true ∧
    EffectOptions.empty.markDirty = none ∧
    (EffectOptions.mk none none none (some false)).markDirty = none ∧
    (mergeOptions EffectOptions.empty
      (EffectOptions.mk none none none (some false))).markDirty ≠ some true := by
  decide

/-- C1 (amended): the merged `markDirty` is `true` when `markDirty` is
absent from both the defaults and the override and the override carries a
truthy `bind` (a nonempty binding target) or `assign` set to `true`; in
every other case it equals the override's `markDirty` when specified, and
otherwise the defaults' `markDirty`. -/
theorem c1_markDirty_merge_amended (d o : EffectOptions) :
    (mergeOptions d o).markDirty =
      if o.markDirty = none ∧ d.markDirty = none ∧
          (jsTruthyStr o.bind || jsTruthyBool o.assign) = true then
        some true
      else
        o.markDirty.orElse fun _ => d.markDirty := by
  rw [mergeOptions_markDirty]
  cases hO : o.markDirty <;> cases hD : d.markDirty <;>
    simp [mergeAssign, hO, hD, Option.orElse]

/-- C2: every key explicitly present in the override ends up in the
merged result with the override's value, whatever the defaults say. -/
theorem c2_override_precedence (d o : EffectOptions) :
    (o.bind.isSome = true → (mergeOptions d o).bind = o.bind) ∧
    (o.markDirty.isSome = true → (mergeOptions d o).markDirty = o.markDirty) ∧
    (o.whenRendered.isSome = true → (mergeOptions d o).whenRendered = o.whenRendered) ∧
    (o.assign.isSome = true → (mergeOptions d o).assign = o.assign) := by
  refine ⟨fun h => ?_, fun h => ?_, fun h => ?_, fun h => ?_⟩
  · rw [mergeOptions_bind]
    cases hB : o.bind <;> simp [hB, Option.orElse] at h ⊢
  · rw [mergeOptions_markDirty]
    cases hM : o.markDirty <;> simp [mergeAssign, hM, Option.orElse] at h ⊢
  · rw [mergeOptions_whenRendered]
    cases hW : o.whenRendered <;> simp [hW, Option.orElse] at h ⊢
  · rw [mergeOptions_assign]
    cases hA : o.assign <;> simp [hA, Option.orElse] at h ⊢

/-- C2 witness at a concrete pair: defaults specify every key, the
override specifies `bind`, `markDirty` and `assign`; each explicitly
present override key survives the merge. -/
theorem c2_override_precedence_witness :
    (mergeOptions (EffectOptions.mk (some "d") (some false) (some true) (some true))
      (EffectOptions.mk (some "x") (some false) none (some true))).bind = some "x" ∧
    (mergeOptions (EffectOptions.mk (some "d") (some false) (some true) (some true))
      (EffectOptions.mk (some "x") (some false) none (some true))).markDirty = some false ∧
    (mergeOptions (EffectOptions.mk (some "d") (some false) (some true) (some true))
      (EffectOptions.mk (some "x") (some false) none (some true))).assign = some true :=
  ⟨(c2_override_precedence _ _).1 (by decide),
   (c2_override_precedence _ _).2.1 (by decide),
   (c2_override_precedence _ _).2.2.2 (by decide)⟩

/-- C9: merging with the empty (or absent, which the source defaults to
`{}`) override is total — no error path exists — and returns exactly the
defaults: every entry falls back to the defaults' entry and the
dirty-marking rule does not fire. -/
theorem c9_empty_options_defaults (d : EffectOptions) :
    mergeOptions d EffectOptions.empty = d := by
  cases d with
  | mk b m w a =>
    cases m <;>
      simp [mergeOptions, mergeAssign, EffectOptions.empty, jsTruthyStr, jsTruthyBool,
        Option.orElse]

/-- Looking a key up in an association list ignores entries appended on
the right when the key is already bound on the left — new `Map.set`
calls for other keys leave existing bindings untouched. -/
theorem lookup_append_of_some {β : Type} (t : String) (v : β)
    (l1 l2 : List (String × β)) (h : List.lookup t l1 = some v) :
    List.lookup t (l1 ++ l2) = some v := by
  induction l1 with
  | nil => simp [List.lookup] at h
  | cons a tl ih =>
    cases a with
    | mk k w =>
      rw [List.cons_append]
      simp only [List.lookup] at h ⊢
      cases hk : (t == k)
      · simp [hk] at h ⊢
        exact ih h
      · simp [hk] at h ⊢
        exact h

/-- A fold of `exploreStep` never changes a binding that is already in
the registry. -/
theorem exploreStep_foldl_preserves (argMeta : ArgKey → String → String → List Nat)
    (defaults : EffectOptions) (t : String) (ds : List EffectMetadata) :
    ∀ (md : MetadataMap) (reg : Registry), List.lookup t reg = some ds →
      List.lookup t (md.foldl (exploreStep argMeta defaults) reg) = some ds := by
  intro md
  induction md with
  | nil => intro reg h; simpa using h
  | cons entry tl ih =>
    intro reg h
    rw [List.foldl_cons]
    apply ih
    unfold exploreStep
    split
    · exact h
    · exact lookup_append_of_some t ds reg _ h

/-- C3: a type already present in the `effectMetadata` registry keeps
its cached descriptor set across any later `exploreEffects` call — the
call skips the type (`continue`), whatever defaults it is given, so the
options merged by the first call win and no re-merge happens. -/
theorem c3_registry_cached_unchanged (argMeta : ArgKey → String → String → List Nat)
    (defaults : EffectOptions) (md : MetadataMap) (reg : Registry)
    (t : String) (ds : List EffectMetadata)
    (h : List.lookup t reg = some ds) :
    List.lookup t (exploreEffects argMeta defaults md reg).1 = some ds :=
  exploreStep_foldl_preserves argMeta defaults t ds md reg h

/-- C3 witness: a registry caching an empty descriptor set for type `T`
is left unchanged by a later call that sees `T` again with different
defaults (`markDirty := some false`) and a newly declared effect on
`T`. -/
theorem c3_registry_cached_unchanged_witness :
    List.lookup "T"
      (exploreEffects (fun _ _ _ => []) (EffectOptions.mk none (some false) none none)
        [("T", [("eff", EffectOptions.empty)])] [("T", [])]).1 = some [] :=
  c3_registry_cached_unchanged (fun _ _ _ => [])
    (EffectOptions.mk none (some false) none none)
    [("T", [("eff", EffectOptions.empty)])] [("T", [])] "T" [] (by decide)

/-- C4 (code bug): at a concrete input — empty registry, one type `T`
with one declared effect `eff`, empty defaults — the value returned by
`exploreEffects` is the raw decorator-metadata collection it was handed
(`return metadata` returns the outer binding, and the function body is
not a generator), while the descriptor built for `T` is stored only in
the registry.  The returned value therefore is not a sequence of the
produced effect descriptors, contradicting the declared return type
`Generator<EffectMetadata>` and the claim. -/
theorem c4_return_value_not_descriptors :
    (exploreEffects (fun _ _ _ => []) EffectOptions.empty
        [("T", [("eff", EffectOptions.empty)])] []).2 =
      [("T", [("eff", EffectOptions.empty)])] ∧
    (exploreEffects (fun _ _ _ => []) EffectOptions.empty
        [("T", [("eff", EffectOptions.empty)])] []).1 =
      [("T", [EffectMetadata.mk "T -> eff" "T" "eff" EffectOptions.empty [[], [], []]])] := by
  constructor
  · rfl
  · decide

/-!
Part 2 models `RenderFactoryObserver`
(`src/libs/ng-effects/src/lib/providers.ts`).

The constructor captures the factory's original pass-completion hook
(`rendererFactory.end || noop`), creates an RxJS `Subject`, captures its
live `observers` array, and installs a replacement hook that first
applies the original hook and then calls `subject.next()` when at least
one observer is registered.  `whenRendered(element, renderer)` pipes the
subject through `filter(() => renderer.parentNode(element) !== null)`,
`take(1)` and `share()`; `ngOnDestroy` completes the subject.

The model is a deterministic state machine:

* `Sys` holds the subject state — `stopped` (the subject has been
  completed), `subs` (the registered `whenRendered` chains, in
  subscription order, each a subscriber id paired with the identity of
  its element), and `log`, the trace of externally visible events.
* An `Act.endPass p atts` is one invocation of the installed
  replacement hook: pass index `p`, and `atts` the set of elements whose
  `renderer.parentNode(element)` is non-null during that pass.  The
  original hook's observable side effects are given by an oracle
  `orig : Nat → List Nat` (effect payloads per pass) and are logged as
  `Ev.orig` events before any notification, mirroring
  `origEndFn.apply(rendererFactory)` preceding `subject.next()`.
* `subject.next()` iterates a copy of the observers, so every chain
  registered when the pass fires sees the value: a chain whose filter
  predicate holds (its element is attached) delivers one notification to
  its subscriber and, by `take(1)`, completes and leaves the subject's
  observer list; a chain whose predicate fails stays registered.
  `share()` is reflected in that subscribers of one `whenRendered`
  observable carry the same element and therefore see the same passes.
* `Act.subscribe` on a completed subject registers nothing (RxJS
  immediately completes the new subscriber); `Act.destroy`
  (`ngOnDestroy`) completes the subject: `stopped` becomes true and the
  observer list is emptied.
-/

/-- Externally visible events: `orig p eff` — the original hook, run by
the replacement hook during pass `p`, performed its side effect `eff`;
`notify id p` — subscriber `id` received a render-completion
notification during pass `p`. -/
inductive Ev where
  | orig (pass eff : Nat)
  | notify (id pass : Nat)
deriving DecidableEq, Repr

/-- Stimuli to the observer: a `whenRendered` subscription (subscriber
id and its element), an invocation of the installed replacement hook
(pass index and the set of attached elements), and `ngOnDestroy`. -/
inductive Act where
  | subscribe (id elem : Nat)
  | endPass (pass : Nat) (attached : List Nat)
  | destroy
deriving DecidableEq, Repr

/-- Subject state plus the event trace. -/
structure Sys where
  stopped : Bool
  subs : List (Nat × Nat)
  log : List Ev
deriving DecidableEq, Repr

/-- The state right after the constructor ran: subject not completed, no
observers, nothing logged. -/
def Sys.start : Sys := ⟨false, [], []⟩

/-- The body of the installed replacement hook for one invocation, given
the side effects `effs` the original hook performs on this pass: run the
original hook first, then — `if (observers.length > 0)`, and
`Subject.next` on a stopped subject delivers nothing — deliver to every
registered chain whose element is attached, each such chain completing
after its single value (`take(1)`). -/
def applyPass (s : Sys) (p : Nat) (effs atts : List Nat) : Sys :=
  if s.subs.isEmpty || s.stopped then
    { s with log := s.log ++ effs.map (Ev.orig p) }
  else
    { s with
      subs := s.subs.filter fun x => !(atts.contains x.2)
      log := s.log ++ effs.map (Ev.orig p) ++
        ((s.subs.filter fun x => atts.contains x.2).map fun x => Ev.notify x.1 p) }

/-- One stimulus. -/
def step (orig : Nat → List Nat) (s : Sys) : Act → Sys
  | Act.subscribe id e =>
      if s.stopped then s else { s with subs := s.subs ++ [(id, e)] }
  | Act.endPass p atts => applyPass s p (orig p) atts
  | Act.destroy => { s with stopped := true, subs := [] }

/-- Run from an arbitrary state. -/
def runFrom (orig : Nat → List Nat) (s : Sys) (acts : List Act) : Sys :=
  acts.foldl (step orig) s

/-- Run from the freshly constructed observer. -/
def run (orig : Nat → List Nat) (acts : List Act) : Sys :=
  runFrom orig Sys.start acts

/-- Is this event a notification to subscriber `id`? -/
def isNotifyOf (id : Nat) : Ev → Bool
  | Ev.notify i _ => i == id
  | _ => false

/-- How many notifications subscriber `id` received in a trace. -/
def notifyCount (id : Nat) (l : List Ev) : Nat := l.countP (isNotifyOf id)

/-- Is this event a notification (to anyone)? -/
def isNotify : Ev → Bool
  | Ev.notify _ _ => true
  | _ => false

/-- The notification events of a trace. -/
def notifyEvents (l : List Ev) : List Ev := l.filter isNotify

/-- Is this stimulus a subscription by subscriber `id`? -/
def isSubscribeOf (id : Nat) : Act → Bool
  | Act.subscribe i _ => i == id
  | _ => false

/-- How many times subscriber `id` subscribes in a stimulus list. -/
def countSubscribe (id : Nat) (acts : List Act) : Nat := acts.countP (isSubscribeOf id)

/-- Unfolding: running the empty stimulus list. -/
theorem runFrom_nil (orig : Nat → List Nat) (s : Sys) : runFrom orig s [] = s := rfl

/-- Unfolding: running one more stimulus. -/
theorem runFrom_cons (orig : Nat → List Nat) (s : Sys) (a : Act) (acts : List Act) :
    runFrom orig s (a :: acts) = runFrom orig (step orig s a) acts := rfl

/-- Runs compose over concatenation of stimulus lists. -/
theorem runFrom_append (orig : Nat → List Nat) (s : Sys) (l1 l2 : List Act) :
    runFrom orig s (l1 ++ l2) = runFrom orig (runFrom orig s l1) l2 := by
  unfold runFrom
  rw [List.foldl_append]

/-- Stepping a subscription. -/
theorem step_subscribe (orig : Nat → List Nat) (s : Sys) (id e : Nat) :
    step orig s (Act.subscribe id e) =
      if s.stopped then s else { s with subs := s.subs ++ [(id, e)] } := rfl

/-- Stepping an invocation of the replacement hook. -/
theorem step_endPass (orig : Nat → List Nat) (s : Sys) (p : Nat) (atts : List Nat) :
    step orig s (Act.endPass p atts) = applyPass s p (orig p) atts := rfl

/-- Stepping teardown. -/
theorem step_destroy (orig : Nat → List Nat) (s : Sys) :
    step orig s Act.destroy = { s with stopped := true, subs := [] } := rfl

/-- Every step only appends to the trace. -/
theorem step_log_mono (orig : Nat → List Nat) (s : Sys) (a : Act) :
    ∃ d, (step orig s a).log = s.log ++ d := by
  cases a with
  | subscribe id e =>
    rw [step_subscribe]
    split
    · exact ⟨[], by simp⟩
    · exact ⟨[], by simp⟩
  | endPass p atts =>
    rw [step_endPass]
    unfold applyPass
    split
    · exact ⟨_, rfl⟩
    · exact ⟨_, List.append_assoc _ _ _⟩
  | destroy => exact ⟨[], by simp [step_destroy]⟩

/-- Logged events survive any further run. -/
theorem mem_log_runFrom (orig : Nat → List Nat) (ev : Ev) :
    ∀ (acts : List Act) (s : Sys), ev ∈ s.log → ev ∈ (runFrom orig s acts).log := by
  intro acts
  induction acts with
  | nil => intro s h; simpa [runFrom_nil] using h
  | cons a tl ih =>
    intro s h
    rw [runFrom_cons]
    apply ih
    rcases step_log_mono orig s a with ⟨d, hd⟩
    rw [hd]
    exact List.mem_append_left d h

/-- Counting over a list splits along any boolean test. -/
theorem countP_split {α : Type} (l : List α) (p q : α → Bool) :
    l.countP p = (l.filter q).countP p + ((l.filter fun x => !(q x)).countP p) := by
  induction l with
  | nil => simp
  | cons a tl ih =>
    by_cases hq : q a = true <;>
      simp [List.filter_cons, hq, List.countP_cons, ih] <;> omega

/-- How often subscriber `id` is currently registered on the subject. -/
def subCount (id : Nat) (s : Sys) : Nat := s.subs.countP fun x => x.1 == id

/-- Notifications already delivered to `id` plus its live registrations:
the quantity a single step can only increase by subscribing. -/
def weight (id : Nat) (s : Sys) : Nat := notifyCount id s.log + subCount id s

/-- A step increases `weight` by at most one, and only on a subscription
by `id`: an `endPass` trades registrations one-for-one against delivered
notifications, teardown only drops registrations. -/
theorem weight_step (orig : Nat → List Nat) (id : Nat) (s : Sys) (a : Act) :
    weight id (step orig s a) ≤ weight id s + (if isSubscribeOf id a then 1 else 0) := by
  cases a with
  | subscribe i e =>
    rw [step_subscribe]
    split
    · exact Nat.le_add_right _ _
    · simp only [weight, subCount, notifyCount, isSubscribeOf, List.countP_append,
        List.countP_cons, List.countP_nil]
      by_cases hi : (i == id) = true <;> simp [hi]
      omega
  | endPass p atts =>
    rw [step_endPass]
    unfold applyPass
    split
    · simp only [weight, subCount, notifyCount, List.countP_append, List.countP_map]
      have hz : (orig p).countP (isNotifyOf id ∘ Ev.orig p) = 0 := by
        simp [isNotifyOf, Function.comp]
      omega
    · simp only [weight, subCount, notifyCount, List.countP_append, List.countP_map]
      have hz : (orig p).countP (isNotifyOf id ∘ Ev.orig p) = 0 := by
        simp [isNotifyOf, Function.comp]
      have hsplit := countP_split s.subs (fun x => x.1 == id) fun x => atts.contains x.2
      have hc : ((s.subs.filter fun x => atts.contains x.2).countP
            (isNotifyOf id ∘ fun x => Ev.notify x.1 p)) =
          ((s.subs.filter fun x => atts.contains x.2).countP fun x => x.1 == id) := by
        apply List.countP_congr
        intro x _
        simp [isNotifyOf, Function.comp]
      omega
  | destroy =>
    rw [step_destroy]
    simp only [weight, subCount, notifyCount, List.countP_nil]
    omega

/-- Over a whole run, `weight` grows at most by the number of
subscriptions performed. -/
theorem weight_runFrom (orig : Nat → List Nat) (id : Nat) :
    ∀ (acts : List Act) (s : Sys),
      weight id (runFrom orig s acts) ≤ weight id s + countSubscribe id acts := by
  intro acts
  induction acts with
  | nil =>
    intro s
    simp [runFrom_nil, countSubscribe]
  | cons a tl ih =>
    intro s
    rw [runFrom_cons]
    calc weight id (runFrom orig (step orig s a) tl)
        ≤ weight id (step orig s a) + countSubscribe id tl := ih _
      _ ≤ weight id s + (if isSubscribeOf id a then 1 else 0) + countSubscribe id tl :=
          Nat.add_le_add_right (weight_step orig id s a) _
      _ = weight id s + countSubscribe id (a :: tl) := by
          simp only [countSubscribe, List.countP_cons]
          omega

/-- A subscriber that subscribes at most once is notified at most once
(the `take(1)` bound at trace level). -/
theorem notifyCount_le_one (orig : Nat → List Nat) (acts : List Act) (id : Nat)
    (h : countSubscribe id acts ≤ 1) : notifyCount id (run orig acts).log ≤ 1 := by
  have hw := weight_runFrom orig id acts Sys.start
  have h0 : weight id Sys.start = 0 := rfl
  have hn : notifyCount id (runFrom orig Sys.start acts).log ≤
      weight id (runFrom orig Sys.start acts) := Nat.le_add_right _ _
  unfold run
  omega

/-- If every registration of `id` (in the state and in upcoming
subscriptions) carries element `e`, then any notification `id` receives
during the run happened at a pass whose attached set contains `e` — the
`filter(() => renderer.parentNode(element) !== null)` stage at trace
level. -/
theorem notify_attached (orig : Nat → List Nat) (id e : Nat) :
    ∀ (acts : List Act) (s : Sys),
      (∀ e2, (id, e2) ∈ s.subs → e2 = e) →
      (∀ e2, Act.subscribe id e2 ∈ acts → e2 = e) →
      ∀ p, Ev.notify id p ∈ (runFrom orig s acts).log →
        Ev.notify id p ∈ s.log ∨
          ∃ atts, Act.endPass p atts ∈ acts ∧ atts.contains e = true := by
  intro acts
  induction acts with
  | nil =>
    intro s _ _ p hp
    left
    simpa [runFrom_nil] using hp
  | cons a tl ih =>
    intro s hs hacts p hp
    rw [runFrom_cons] at hp
    have hacts2 : ∀ e2, Act.subscribe id e2 ∈ tl → e2 = e :=
      fun e2 hx => hacts e2 (List.mem_cons_of_mem _ hx)
    cases a with
    | subscribe i e2 =>
      have hs2 : ∀ x, (id, x) ∈ (step orig s (Act.subscribe i e2)).subs → x = e := by
        intro x hx
        rw [step_subscribe] at hx
        split at hx
        · exact hs x hx
        · rcases List.mem_append.1 hx with h1 | h1
          · exact hs x h1
          · have h2 : id = i ∧ x = e2 := by simpa using h1
            refine hacts x ?_
            have h3 : Act.subscribe id x = Act.subscribe i e2 := by rw [h2.1, h2.2]
            rw [h3]
            exact List.mem_cons_self _ _
      have hlog : (step orig s (Act.subscribe i e2)).log = s.log := by
        rw [step_subscribe]
        split <;> rfl
      rcases ih (step orig s (Act.subscribe i e2)) hs2 hacts2 p hp with h1 | ⟨atts, hm, hc⟩
      · left
        rwa [hlog] at h1
      · right
        exact ⟨atts, List.mem_cons_of_mem _ hm, hc⟩
    | endPass p2 atts =>
      have hs2 : ∀ x, (id, x) ∈ (step orig s (Act.endPass p2 atts)).subs → x = e := by
        intro x hx
        rw [step_endPass] at hx
        unfold applyPass at hx
        split at hx
        · exact hs x hx
        · exact hs x (List.mem_of_mem_filter hx)
      rcases ih _ hs2 hacts2 p hp with h1 | ⟨atts2, hm, hc⟩
      · rw [step_endPass] at h1
        unfold applyPass at h1
        split at h1
        · exact Or.inl (by simpa using h1)
        · have h1s : Ev.notify id p ∈ s.log ∨
              ∃ a, (∃ y, (a, y) ∈ s.subs ∧ y ∈ atts) ∧ a = id ∧ p2 = p := by
            simpa using h1
          rcases h1s with h2 | ⟨a, ⟨y, hy, hyatt⟩, ha, hp2⟩
          · exact Or.inl h2
          · right
            refine ⟨atts, ?_, ?_⟩
            · rw [hp2]
              exact List.mem_cons_self _ _
            · have hye : y = e := hs y (by rwa [ha] at hy)
              have hmem : e ∈ atts := hye ▸ hyatt
              simpa using hmem
      · right
        exact ⟨atts2, List.mem_cons_of_mem _ hm, hc⟩
    | destroy =>
      have hs2 : ∀ x, (id, x) ∈ (step orig s Act.destroy).subs → x = e := by
        intro x hx
        rw [step_destroy] at hx
        simp at hx
      rcases ih _ hs2 hacts2 p hp with h1 | ⟨atts, hm, hc⟩
      · left
        exact h1
      · right
        exact ⟨atts, List.mem_cons_of_mem _ hm, hc⟩

/-- The subject only becomes stopped through teardown. -/
theorem stopped_of_no_destroy (orig : Nat → List Nat) :
    ∀ (acts : List Act) (s : Sys), Act.destroy ∉ acts →
      (runFrom orig s acts).stopped = s.stopped := by
  intro acts
  induction acts with
  | nil => intro s _; rfl
  | cons a tl ih =>
    intro s h
    rw [runFrom_cons, ih _ fun hc => h (List.mem_cons_of_mem _ hc)]
    cases a with
    | subscribe i e =>
      rw [step_subscribe]
      split <;> rfl
    | endPass p atts =>
      rw [step_endPass]
      unfold applyPass
      split <;> rfl
    | destroy => exact absurd (List.mem_cons_self _ _) h

/-- A registered chain whose element is attached at some upcoming pass,
with no teardown and no earlier matching pass in between, receives the
notification of that pass. -/
theorem first_match_delivers (orig : Nat → List Nat) (id e p : Nat) (atts : List Nat)
    (hatt : atts.contains e = true) (post : List Act) :
    ∀ (mid : List Act) (s : Sys),
      (id, e) ∈ s.subs → s.stopped = false →
      Act.destroy ∉ mid →
      (∀ p2 atts2, Act.endPass p2 atts2 ∈ mid → atts2.contains e = false) →
      Ev.notify id p ∈ (runFrom orig s (mid ++ Act.endPass p atts :: post)).log := by
  intro mid
  induction mid with
  | nil =>
    intro s hin hstop _ _
    rw [List.nil_append, runFrom_cons]
    apply mem_log_runFrom
    rw [step_endPass]
    unfold applyPass
    have hne : s.subs.isEmpty = false := by
      cases hsubs : s.subs with
      | nil => rw [hsubs] at hin; simp at hin
      | cons b bt => simp [hsubs]
    rw [if_neg (by simp [hne, hstop])]
    apply List.mem_append_right
    apply List.mem_map.2
    exact ⟨(id, e), List.mem_filter.2 ⟨hin, hatt⟩, rfl⟩
  | cons a tl ih =>
    intro s hin hstop hdes hfirst
    rw [List.cons_append, runFrom_cons]
    have hdes2 : Act.destroy ∉ tl := fun hc => hdes (List.mem_cons_of_mem _ hc)
    have hfirst2 : ∀ p2 atts2, Act.endPass p2 atts2 ∈ tl → atts2.contains e = false :=
      fun p2 atts2 hm => hfirst p2 atts2 (List.mem_cons_of_mem _ hm)
    cases a with
    | subscribe i e2 =>
      apply ih
      · rw [step_subscribe, if_neg (by simp [hstop])]
        exact List.mem_append_left _ hin
      · rw [step_subscribe, if_neg (by simp [hstop])]
        exact hstop
      · exact hdes2
      · exact hfirst2
    | endPass p2 atts2 =>
      have hf : atts2.contains e = false := hfirst p2 atts2 (List.mem_cons_self _ _)
      apply ih
      · rw [step_endPass]
        unfold applyPass
        split
        · exact hin
        · have hf2 : e ∉ atts2 := by simpa using hf
          exact List.mem_filter.2 ⟨hin, by simp [hf2]⟩
      · rw [step_endPass]
        unfold applyPass
        split <;> exact hstop
      · exact hdes2
      · exact hfirst2
    | destroy => exact absurd (List.mem_cons_self _ _) hdes

/-- From a completed, observer-free subject state — the state teardown
leaves behind — a run adds no notification events, and the subject stays
completed and observer-free. -/
theorem closed_run (orig : Nat → List Nat) :
    ∀ (acts : List Act) (s : Sys), s.stopped = true → s.subs = [] →
      (runFrom orig s acts).stopped = true ∧ (runFrom orig s acts).subs = [] ∧
      notifyEvents (runFrom orig s acts).log = notifyEvents s.log := by
  intro acts
  induction acts with
  | nil =>
    intro s h1 h2
    exact ⟨h1, h2, rfl⟩
  | cons a tl ih =>
    intro s h1 h2
    rw [runFrom_cons]
    cases a with
    | subscribe i e =>
      rw [step_subscribe, if_pos h1]
      exact ih s h1 h2
    | endPass p atts =>
      rw [step_endPass]
      unfold applyPass
      rw [if_pos (by simp [h1])]
      rcases ih { s with log := s.log ++ (orig p).map (Ev.orig p) } h1 h2 with ⟨ha, hb, hc⟩
      refine ⟨ha, hb, ?_⟩
      rw [hc]
      unfold notifyEvents
      rw [List.filter_append]
      have hz : ((orig p).map (Ev.orig p)).filter isNotify = [] := by
        simp [isNotify]
      rw [hz, List.append_nil]
    | destroy =>
      rw [step_destroy]
      exact ih _ rfl rfl

/-- C5: for every invocation of the installed replacement hook, the
trace grows by the original hook's effects followed by notifications of
that same pass only; no notification is appended when no observer was
registered at the moment the hook ran; and — across a whole run — a
subscriber obtained through `whenRendered` (it subscribes once) receives
at most one notification. -/
theorem c5_emission_guard_and_once :
    (∀ (orig : Nat → List Nat) (s : Sys) (p : Nat) (atts : List Nat),
      ∃ ns, (step orig s (Act.endPass p atts)).log =
          s.log ++ (orig p).map (Ev.orig p) ++ ns ∧
        (∀ ev ∈ ns, ∃ id, ev = Ev.notify id p) ∧
        (s.subs = [] → ns = [])) ∧
    ∀ (orig : Nat → List Nat) (acts : List Act) (id : Nat),
      countSubscribe id acts ≤ 1 → notifyCount id (run orig acts).log ≤ 1 := by
  constructor
  · intro orig s p atts
    rw [step_endPass]
    unfold applyPass
    split
    · exact ⟨[], by simp, by simp, fun _ => rfl⟩
    · rename_i hguard
      refine ⟨_, rfl, ?_, ?_⟩
      · intro ev hev
        rcases List.mem_map.1 hev with ⟨x, _, hx⟩
        exact ⟨x.1, hx.symm⟩
      · intro hsubs
        exact absurd (by simp [hsubs]) hguard
  · exact fun orig acts id h => notifyCount_le_one orig acts id h

/-- C5 witness: in the run `subscribe 0; endPass; endPass` — subscriber
`0` subscribes once — subscriber `0` is notified at most once. -/
theorem c5_emission_guard_and_once_witness :
    countSubscribe 0 [Act.subscribe 0 1, Act.endPass 2 [1], Act.endPass 3 [1]] ≤ 1 ∧
    notifyCount 0
      (run (fun _ => []) [Act.subscribe 0 1, Act.endPass 2 [1], Act.endPass 3 [1]]).log ≤ 1 :=
  ⟨by decide,
   c5_emission_guard_and_once.2 (fun _ => [])
     [Act.subscribe 0 1, Act.endPass 2 [1], Act.endPass 3 [1]] 0 (by decide)⟩

/-- C6: a `whenRendered` subscriber is notified only at a pass where its
element is attached (`renderer.parentNode(element) !== null`); it is
notified at most once; and every subscriber for element `e` registered
before the first pass at which `e` is attached (no teardown and no
earlier matching pass in between) receives the notification of exactly
that shared pass. -/
theorem c6_whenRendered_filter_take_share :
    (∀ (orig : Nat → List Nat) (acts : List Act) (id e : Nat),
      (∀ e2, Act.subscribe id e2 ∈ acts → e2 = e) →
      ∀ p, Ev.notify id p ∈ (run orig acts).log →
        ∃ atts, Act.endPass p atts ∈ acts ∧ atts.contains e = true) ∧
    (∀ (orig : Nat → List Nat) (acts : List Act) (id : Nat),
      countSubscribe id acts ≤ 1 → notifyCount id (run orig acts).log ≤ 1) ∧
    ∀ (orig : Nat → List Nat) (pre : List Act) (id e : Nat) (mid : List Act)
      (p : Nat) (atts : List Nat) (post : List Act),
      atts.contains e = true →
      Act.destroy ∉ pre →
      Act.destroy ∉ mid →
      (∀ p2 atts2, Act.endPass p2 atts2 ∈ mid → atts2.contains e = false) →
      Ev.notify id p ∈
        (run orig (pre ++ Act.subscribe id e :: (mid ++ Act.endPass p atts :: post))).log := by
  refine ⟨?_, ?_, ?_⟩
  · intro orig acts id e hcons p hp
    have h0 : ∀ e2, (id, e2) ∈ Sys.start.subs → e2 = e := by
      intro e2 h
      simp [Sys.start] at h
    rcases notify_attached orig id e acts Sys.start h0 hcons p hp with h1 | h2
    · simp [Sys.start] at h1
    · exact h2
  · exact fun orig acts id h => notifyCount_le_one orig acts id h
  · intro orig pre id e mid p atts post hatt hpre hmid hfirst
    unfold run
    rw [runFrom_append, runFrom_cons]
    have hstop : (runFrom orig Sys.start pre).stopped = false := by
      rw [stopped_of_no_destroy orig pre Sys.start hpre]
      rfl
    apply first_match_delivers orig id e p atts hatt post mid
    · rw [step_subscribe, if_neg (by simp [hstop])]
      exact List.mem_append_right _ (List.mem_singleton.2 rfl)
    · rw [step_subscribe, if_neg (by simp [hstop])]
      exact hstop
    · exact hmid
    · exact hfirst

/-- C6 witness: subscriber `0` for element `1` subscribes, then a pass
completes with element `1` attached; subscriber `0` receives that pass's
notification. -/
theorem c6_whenRendered_filter_take_share_witness :
    Ev.notify 0 5 ∈
      (run (fun _ => []) ([] ++ Act.subscribe 0 1 :: ([] ++ Act.endPass 5 [1] :: []))).log :=
  c6_whenRendered_filter_take_share.2.2 (fun _ => []) [] 0 1 [] 5 [1] [] (by decide)
    (List.not_mem_nil _) (List.not_mem_nil _)
    fun p2 atts2 hm => absurd hm (List.not_mem_nil _)

/-- C7: once `ngOnDestroy` has completed the subject, no further
notification is ever delivered — the notification events of any
continuation of the run are exactly those present at teardown, however
often the replacement hook fires afterwards and whatever else happens. -/
theorem c7_destroy_closes_channel (orig : Nat → List Nat) (acts1 acts2 : List Act) :
    notifyEvents (run orig (acts1 ++ Act.destroy :: acts2)).log =
      notifyEvents (run orig (acts1 ++ [Act.destroy])).log := by
  have hsplit : acts1 ++ Act.destroy :: acts2 = (acts1 ++ [Act.destroy]) ++ acts2 := by
    simp
  rw [hsplit]
  unfold run
  rw [runFrom_append]
  have h1 : (runFrom orig Sys.start (acts1 ++ [Act.destroy])).stopped = true := by
    rw [runFrom_append]
    rfl
  have h2 : (runFrom orig Sys.start (acts1 ++ [Act.destroy])).subs = [] := by
    rw [runFrom_append]
    rfl
  exact (closed_run orig acts2 _ h1 h2).2.2

/-- Specification-side definition for the refinement claim, modelled
from the spec's wording: the observable side effects the original
pass-completion hook alone would produce during pass `p`. -/
def originalHookEffects (orig : Nat → List Nat) (p : Nat) : List Ev :=
  (orig p).map (Ev.orig p)

/-- C8: every invocation of the replacement hook first performs exactly
the original hook's side effects, unchanged and in order, and appends
nothing but the added notifications after them. -/
theorem c8_original_hook_preserved (orig : Nat → List Nat) (s : Sys) (p : Nat)
    (atts : List Nat) :
    ∃ ns, (step orig s (Act.endPass p atts)).log =
        s.log ++ originalHookEffects orig p ++ ns ∧
      ∀ ev ∈ ns, ∃ id, ev = Ev.notify id p := by
  unfold originalHookEffects
  rw [step_endPass]
  unfold applyPass
  split
  · exact ⟨[], by simp, by simp⟩
  · refine ⟨_, rfl, ?_⟩
    intro ev hev
    rcases List.mem_map.1 hev with ⟨x, _, hx⟩
    exact ⟨x.1, hx.symm⟩

/-- C8 witness at a concrete state and pass. -/
theorem c8_original_hook_preserved_witness :
    ∃ ns, (step (fun _ => [7]) Sys.start (Act.endPass 3 [])).log =
        Sys.start.log ++ originalHookEffects (fun _ => [7]) 3 ++ ns ∧
      ∀ ev ∈ ns, ∃ id, ev = Ev.notify id 3 :=
  c8_original_hook_preserved (fun _ => [7]) Sys.start 3 []

/-- The renderer factory as the constructor sees it: its pass-completion
hook may be absent (`null`/`undefined`). -/
structure RendererFactory where
  endHook : Option (Nat → List Nat)

/-- `noop` from utils: a hook with no observable effects. -/
def noopHook : Nat → List Nat := fun _ => []

/-- `const origEndFn = rendererFactory.end || noop`: a function value is
always truthy and an absent hook falls back to `noop`, so the captured
callee is always a callable function. -/
def observerOrigEndFn (rf : RendererFactory) : Option (Nat → List Nat) :=
  some (rf.endHook.getD noopHook)

/-- JavaScript application of a possibly-undefined callee: calling
`undefined` throws a `TypeError`. -/
def callJS (f : Option (Nat → List Nat)) (p : Nat) : Except String (List Nat) :=
  match f with
  | none => Except.error "TypeError: not a function"
  | some g => Except.ok (g p)

/-- One invocation of the installed replacement hook, the call of the
captured original hook modeled fallibly through `callJS`. -/
def invokeEnd (f : Option (Nat → List Nat)) (s : Sys) (p : Nat) (atts : List Nat) :
    Except String Sys :=
  (callJS f p).map fun effs => applyPass s p effs atts

/-- C10: when the factory has no pass-completion hook, the constructor's
`|| noop` fallback makes every invocation of the installed replacement
hook complete without error (it behaves as a pass with no original
effects). -/
theorem c10_missing_end_hook_safe (rf : RendererFactory) (s : Sys) (p : Nat)
    (atts : List Nat) (h : rf.endHook = none) :
    invokeEnd (observerOrigEndFn rf) s p atts = Except.ok (applyPass s p [] atts) := by
  simp only [invokeEnd, observerOrigEndFn, callJS, h, noopHook, Option.getD]
  rfl

/-- C10 witness: a factory with an absent hook, invoked at pass `0`. -/
theorem c10_missing_end_hook_safe_witness :
    invokeEnd (observerOrigEndFn (RendererFactory.mk none)) Sys.start 0 [] =
      Except.ok (applyPass Sys.start 0 [] []) :=
  c10_missing_end_hook_safe (RendererFactory.mk none) Sys.start 0 [] rfl
